import Mathlib

/-!
Shallow embedding of `qualtrics_data_compiler.py`: the value remapper
`remap_to_int`, the bit-field list remapper `remap_list`, and the column
pipeline of the main block (rename, reindex, reorder, per-column remap).
Machine integers are modelled as `Int` (Python integers are unbounded, so no
wrap-around is needed); a raised Python exception is modelled as the error
side of `Except`.
-/

namespace QDC

/-- A cell of the loaded table: a present string, the float NaN marker pandas
uses for a missing cell, or an integer produced by a remap. -/
inductive Cell where
  | str (s : String)
  | nanV
  | intV (i : Int)
deriving DecidableEq, Repr

/-- The Python exceptions the remapping core can raise: `KeyError` (carrying
the missing key, the `UnknownCategory` of the specification) from a dict
lookup, and `ValueError` from `1 << n` with a negative shift count. -/
inductive PyError where
  | keyError (key : String)
  | valueError
deriving DecidableEq, Repr

/-- The `StringToInt` alias of the source: a mapper is either a dict
(a finite association table) or a callable. -/
inductive StringToInt where
  | mapping (table : List (String × Int))
  | callable (f : String → Except PyError Int)

/-- Applying a mapper to a present string, as both `remap_to_int` and the
lambda inside `remap_list` do: `mapper(value)` when the mapper is callable,
otherwise the dict lookup `mapper[value]`, which raises `KeyError` when the
key is absent. -/
def mapperApply (mapper : StringToInt) (s : String) : Except PyError Int :=
  match mapper with
  | .callable f => f s
  | .mapping table =>
    match table.lookup s with
    | some n => .ok n
    | none => .error (.keyError s)

/-- `remap_to_int(value, mapper, nan=-1)` of the source: a NaN cell returns
the `nan` sentinel without consulting the mapper; a string cell is resolved
through the mapper. An integer cell is not a float NaN and is not a string
key of any dict in this program, so its lookup raises `KeyError` (integer
cells never reach the remapper in the pipeline, whose raw survey columns
hold strings or NaN). -/
def remap_to_int (value : Cell) (mapper : StringToInt) (nan : Int := -1) :
    Except PyError Int :=
  match value with
  | .nanV => .ok nan
  | .str s => mapperApply mapper s
  | .intV i => .error (.keyError (toString i))

/-- The `{'Yes': 1, 'No': 0}` dict of `remap_yes_no`. -/
def yesNoTable : List (String × Int) := [("Yes", 1), ("No", 0)]

/-- `remap_yes_no(value)` of the source: `remap_to_int` with the yes/no dict
and the default sentinel −1. -/
def remap_yes_no (value : Cell) : Except PyError Int :=
  remap_to_int value (.mapping yesNoTable)

/-- Python `values.split(',')` on the character list of the string: always at
least one token, an empty string yields the single token `[]`, and empty
segments between, before or after commas are kept. -/
def splitComma : List Char → List (List Char)
  | [] => [[]]
  | c :: cs =>
    match splitComma cs with
    | t :: ts => if c = ',' then [] :: t :: ts else (c :: t) :: ts
    | [] => [[]]

/-- The loop of `remap_list`: for each token resolve a bit index through the
mapper and OR `1 << index` into the accumulator. A negative resolved index
would make `1 << index` raise `ValueError`; for a non-negative index the
accumulator stays a natural number. -/
def remapTokensAux (index_mapper : StringToInt) (acc : Nat) :
    List (List Char) → Except PyError Nat
  | [] => .ok acc
  | t :: ts =>
    match mapperApply index_mapper (String.mk t) with
    | .error e => .error e
    | .ok i =>
      if i < 0 then .error .valueError
      else remapTokensAux index_mapper (acc ||| (1 <<< i.toNat)) ts

/-- `remap_list(values, index_mapper)` of the source: split the string on
commas, resolve every token to a bit index, and return the bitwise OR of the
shifted bits as an integer. No token is ever treated as missing. -/
def remap_list (values : String) (index_mapper : StringToInt) :
    Except PyError Int :=
  (remapTokensAux index_mapper 0 (splitComma values.data)).map
    (fun n => (n : Int))

/-- The `paper_type` dict of the main block. -/
def paperTypeTable : List (String × Int) :=
  [("Research Article", 1), ("Short paper", 2), ("Poster", 3)]

/-- The `open_methodology` dict of the main block. -/
def openMethodologyTable : List (String × Int) :=
  [("Public Access", 3), ("Open Access", 2), ("Available", 1), ("No", 0)]

/-- The `open_data` dict of the main block. -/
def openDataTable : List (String × Int) :=
  [("Yes", 2), ("Data Available on Request", 1), ("No", 0)]

/-- The `data_documentation` dict of the main block. -/
def dataDocumentationTable : List (String × Int) :=
  [("Yes", 2), ("Partial", 1), ("No", 0)]

/-- The `open_materials` dict of the main block. -/
def openMaterialsTable : List (String × Int) :=
  [("Full", 3), ("Partial", 2), ("On Request", 1), ("No", 0)]

/-- The `materials_documentation` dict of the main block. -/
def materialsDocumentationTable : List (String × Int) :=
  [("Full", 2), ("Partial", 1), ("No", 0)]

/-- The `index_mapper` dict of the `reference_degradation` remap. -/
def referenceDegradationIndexTable : List (String × Int) :=
  [("Open Methodology", 0), ("Open Data", 1),
   ("Open Materials", 2), ("Preregistration", 3)]

/-- The mapper passed to `remap_to_int` for the `reference_degradation`
column: a callable running `remap_list` with the bit-index dict. -/
def referenceDegradationMapper : StringToInt :=
  .callable (fun v => remap_list v (.mapping referenceDegradationIndexTable))

/-- The twelve per-column remaps of the main block, in source order: target
column name, mapper, and missing-value sentinel. The five yes/no columns use
`remap_yes_no`, that is the yes/no dict with the default sentinel −1; the
`reference_degradation` column uses the `remap_list` callable with
sentinel 0. The `conference_proceedings` column appears in no entry: the
main block never remaps it. -/
def columnRules : List (String × StringToInt × Int) :=
  [("paper_type", .mapping paperTypeTable, -1),
   ("acm_misclassified", .mapping yesNoTable, -1),
   ("open_methodology", .mapping openMethodologyTable, -1),
   ("open_data", .mapping openDataTable, -1),
   ("data_documentation", .mapping dataDocumentationTable, -1),
   ("open_materials", .mapping openMaterialsTable, -1),
   ("materials_documentation", .mapping materialsDocumentationTable, -1),
   ("readme", .mapping yesNoTable, -1),
   ("permissible_software_license", .mapping yesNoTable, -1),
   ("preregistration", .mapping yesNoTable, -1),
   ("reproducible", .mapping yesNoTable, -1),
   ("reference_degradation", referenceDegradationMapper, 0)]

/-- The names of the twelve remapped target columns, in source order. -/
def remappedColumns : List String := columnRules.map Prod.fst

/-- The loaded pandas frame: the name of the index column, the list of data
column names, and the rows, each an index value together with an association
list from column name to cell. -/
structure DataFrame where
  indexName : String
  columns : List String
  rows : List (String × List (String × Cell))
deriving DecidableEq, Repr

/-- `data.rename(columns=m)` renames a column through the dict when it is a
key and keeps it unchanged otherwise. -/
def renameKey (m : List (String × String)) (k : String) : String :=
  (m.lookup k).getD k

/-- `data.rename(columns=m)`: every column name of the frame, in the header
and in every row, is renamed through the dict. -/
def DataFrame.rename (df : DataFrame) (m : List (String × String)) :
    DataFrame :=
  { df with
    columns := df.columns.map (renameKey m),
    rows := df.rows.map
      (fun r => (r.1, r.2.map (fun kv => (renameKey m kv.1, kv.2)))) }

/-- `data.index.name = n`. -/
def DataFrame.setIndexName (df : DataFrame) (n : String) : DataFrame :=
  { df with indexName := n }

/-- `data[[cols]]`: keep exactly the listed columns, in the listed order.
Defined for the frames of interest, whose rows carry every listed column; a
column a row lacks is read as NaN (pandas would reject such a frame before
the remaps run, so the default is never exercised by a valid input). -/
def DataFrame.select (df : DataFrame) (cols : List String) : DataFrame :=
  { indexName := df.indexName,
    columns := cols,
    rows := df.rows.map
      (fun r => (r.1, cols.map (fun c => (c, (r.2.lookup c).getD Cell.nanV)))) }

/-- One row of `data[col].map(f)` with assignment back to `data[col]`: the
cell of every pair whose column name is `col` goes through `f`, every other
pair is kept; the first raised error aborts the row. -/
def mapRow (col : String) (f : Cell → Except PyError Cell) :
    List (String × Cell) → Except PyError (List (String × Cell))
  | [] => .ok []
  | kv :: rest =>
    match (if kv.1 = col then f kv.2 else .ok kv.2) with
    | .error e => .error e
    | .ok v2 =>
      match mapRow col f rest with
      | .error e => .error e
      | .ok rest2 => .ok ((kv.1, v2) :: rest2)

/-- All rows of `data[col].map(f)`: rows are transformed in order and the
first raised error aborts the whole column. -/
def mapRows (col : String) (f : Cell → Except PyError Cell) :
    List (String × List (String × Cell)) →
    Except PyError (List (String × List (String × Cell)))
  | [] => .ok []
  | r :: rest =>
    match mapRow col f r.2 with
    | .error e => .error e
    | .ok r2 =>
      match mapRows col f rest with
      | .error e => .error e
      | .ok rest2 => .ok ((r.1, r2) :: rest2)

/-- `data[col] = data[col].map(f)` on the whole frame. -/
def DataFrame.mapCol (df : DataFrame) (col : String)
    (f : Cell → Except PyError Cell) : Except PyError DataFrame :=
  match mapRows col f df.rows with
  | .error e => .error e
  | .ok rows2 => .ok { df with rows := rows2 }

/-- The cell-level remap a column rule performs: `remap_to_int` with the
mapper of the rule and its sentinel, storing the integer back in the cell. -/
def remapCell (mapper : StringToInt) (nan : Int) (c : Cell) :
    Except PyError Cell :=
  (remap_to_int c mapper nan).map Cell.intV

/-- The rename dict of the main block, in source order. -/
def renameMap : List (String × String) :=
  [("Open Data", "open_data"),
   ("Open Materials", "open_materials"),
   ("Conference Proceedings", "conference_proceedings"),
   ("Type", "paper_type"),
   ("Misclassified", "acm_misclassified"),
   ("Open Methodology", "open_methodology"),
   ("Data Documentation", "data_documentation"),
   ("Materials Documentation", "materials_documentation"),
   ("README", "readme"),
   ("License", "permissible_software_license"),
   ("Preregistration", "preregistration"),
   ("Reproducible", "reproducible"),
   ("Reference Degradation", "reference_degradation")]

/-- The column list of the reorder `data[[...]]` of the main block. -/
def orderedColumns : List String :=
  ["conference_proceedings", "paper_type", "acm_misclassified",
   "open_methodology", "open_data", "data_documentation", "open_materials",
   "materials_documentation", "readme", "permissible_software_license",
   "preregistration", "reproducible", "reference_degradation"]

/-- The schema steps of the main block before any remap: rename the columns,
set the index name to `doi`, reorder to the fixed thirteen columns. -/
def prepare (df : DataFrame) : DataFrame :=
  ((df.rename renameMap).setIndexName "doi").select orderedColumns

/-- One per-column remap statement of the main block. -/
def applyRule (r : String × StringToInt × Int) (df : DataFrame) :
    Except PyError DataFrame :=
  df.mapCol r.1 (remapCell r.2.1 r.2.2)

/-- The per-column remap statements run in order; the first raised error
aborts the remaining statements. -/
def runRules : List (String × StringToInt × Int) → DataFrame →
    Except PyError DataFrame
  | [], d => .ok d
  | r :: rs, d =>
    match applyRule r d with
    | .error e => .error e
    | .ok d2 => runRules rs d2

/-- The whole transform of the main block: prepare the frame, then run the
twelve column remaps in source order; the first raised `KeyError` aborts the
run before `to_csv` writes anything. -/
def pipeline (df : DataFrame) : Except PyError DataFrame :=
  runRules columnRules (prepare df)

/-- The header `to_csv` writes: the index name first, then the data columns
in frame order. -/
def csvHeader (df : DataFrame) : List String :=
  df.indexName :: df.columns

/-- Whether a cell holds an integer. -/
def Cell.isInt : Cell → Bool
  | .intV _ => true
  | _ => false

/-- A concrete one-row valid input frame, as `read_csv` loads it: every
source column present, the `Conference Proceedings` cell a plain string, the
`Reference Degradation` cell missing. -/
def exampleDf : DataFrame :=
  { indexName := "Paper DOI Link",
    columns :=
      ["Conference Proceedings", "Type", "Misclassified", "Open Methodology",
       "Open Data", "Data Documentation", "Open Materials",
       "Materials Documentation", "README", "License", "Preregistration",
       "Reproducible", "Reference Degradation"],
    rows :=
      [("10.1145/3290605.3300000",
        [("Conference Proceedings", .str "ACM CHI 2020"),
         ("Type", .str "Research Article"),
         ("Misclassified", .str "Yes"),
         ("Open Methodology", .str "Public Access"),
         ("Open Data", .str "Yes"),
         ("Data Documentation", .str "Partial"),
         ("Open Materials", .str "Full"),
         ("Materials Documentation", .str "Partial"),
         ("README", .str "Yes"),
         ("License", .str "No"),
         ("Preregistration", .str "No"),
         ("Reproducible", .str "Yes"),
         ("Reference Degradation", .nanV)])] }

/-- The frame the pipeline produces from `exampleDf`: the key column renamed
to `doi`, the thirteen target columns in fixed order, the twelve remapped
cells integral, the `conference_proceedings` cell passed through unchanged
as a string. -/
def exampleCompiled : DataFrame :=
  { indexName := "doi",
    columns := orderedColumns,
    rows :=
      [("10.1145/3290605.3300000",
        [("conference_proceedings", .str "ACM CHI 2020"),
         ("paper_type", .intV 1),
         ("acm_misclassified", .intV 1),
         ("open_methodology", .intV 3),
         ("open_data", .intV 2),
         ("data_documentation", .intV 1),
         ("open_materials", .intV 3),
         ("materials_documentation", .intV 1),
         ("readme", .intV 1),
         ("permissible_software_license", .intV 0),
         ("preregistration", .intV 0),
         ("reproducible", .intV 1),
         ("reference_degradation", .intV 0)])] }

/-- The cells of one named column, row by row. -/
def colCells (df : DataFrame) (c : String) : List (Option Cell) :=
  df.rows.map (fun r => r.2.lookup c)

/-- A rule can remap a row: every cell of the row stored under the column
name of the rule resolves to some integer. -/
def ruleResolvesRow (r : String × StringToInt × Int)
    (row : List (String × Cell)) : Prop :=
  ∀ kv ∈ row, kv.1 = r.1 → ∃ i, remap_to_int kv.2 r.2.1 r.2.2 = .ok i

/-- Every cell of every remapped column of the prepared frame resolves under
the rule of its column. -/
def allCellsResolve (df : DataFrame) : Prop :=
  ∀ r ∈ columnRules, ∀ row ∈ (prepare df).rows, ruleResolvesRow r row.2

/-- The token list resolves elementwise to the given bit indices. -/
def resolvesTo (m : StringToInt) :
    List (List Char) → List Nat → Prop
  | [], [] => True
  | t :: ts, i :: is =>
    mapperApply m (String.mk t) = .ok (i : Int) ∧ resolvesTo m ts is
  | _, _ => False

/-- The bitwise OR of `1 <<< i` over a list of bit indices. -/
def orBits (idxs : List Nat) : Nat :=
  idxs.foldl (fun a i => a ||| (1 <<< i)) 0

/-- Every token of the list resolves to a natural bit index under the
mapper. -/
def allResolveNat (m : StringToInt) (ts : List (List Char)) : Prop :=
  ∀ t ∈ ts, ∃ n : Nat, mapperApply m (String.mk t) = .ok ((n : Nat) : Int)

/-- How a row relates to its image under the remaps of the columns in `S`:
same column names in the same order, cells of columns in `S` replaced by
integers, every other cell unchanged. -/
def RowRel (S : List String) (row0 row1 : List (String × Cell)) : Prop :=
  List.Forall₂
    (fun kv0 kv1 => kv0.1 = kv1.1 ∧
      (kv0.1 ∈ S → ∃ i, kv1.2 = Cell.intV i) ∧
      (kv0.1 ∉ S → kv1.2 = kv0.2))
    row0 row1

/-- How a frame relates to its image under the remaps of the columns in `S`:
index name, header and row keys unchanged, every row related by
`RowRel S`. -/
def FrameRel (S : List String) (d0 d1 : DataFrame) : Prop :=
  d1.indexName = d0.indexName ∧ d1.columns = d0.columns ∧
  List.Forall₂ (fun r0 r1 => r0.1 = r1.1 ∧ RowRel S r0.2 r1.2)
    d0.rows d1.rows

/-- Claim C1: for every value in the closed vocabulary of a per-column remap
rule, `remap_to_int` returns exactly the integer the literal table assigns
to it, whatever the sentinel; per token the bit-index table of
`reference_degradation` resolves likewise; in particular the `paper_type`
rule sends Research Article to 1, Short paper to 2 and Poster to 3. -/
theorem remap_vocab_exact :
    (∀ r ∈ columnRules, ∀ tbl : List (String × Int),
      r.2.1 = StringToInt.mapping tbl →
      ∀ kv ∈ tbl, ∀ sentinel : Int,
        remap_to_int (Cell.str kv.1) r.2.1 sentinel = .ok kv.2) ∧
    (∀ kv ∈ referenceDegradationIndexTable,
      mapperApply (.mapping referenceDegradationIndexTable) kv.1 =
        .ok kv.2) ∧
    remap_to_int (Cell.str "Research Article") (.mapping paperTypeTable) =
      .ok 1 ∧
    remap_to_int (Cell.str "Short paper") (.mapping paperTypeTable) =
      .ok 2 ∧
    remap_to_int (Cell.str "Poster") (.mapping paperTypeTable) = .ok 3 := by
  refine ⟨?_, ?_, rfl, rfl, rfl⟩
  · intro r hr tbl htbl kv hkv sentinel
    fin_cases hr <;>
      first
      | (injection htbl with h; subst h; fin_cases hkv <;> rfl)
      | injection htbl
  · intro kv hkv
    fin_cases hkv <;> rfl

/-- Claim C2: a missing (NaN) value remaps to the sentinel, whatever the
rule; the sentinel configured in the main block is 0 for the
`reference_degradation` column and the default −1 for every other remapped
column. -/
theorem remap_missing_sentinel :
    (∀ (mapper : StringToInt) (sentinel : Int),
      remap_to_int Cell.nanV mapper sentinel = .ok sentinel) ∧
    (∀ r ∈ columnRules,
      remap_to_int Cell.nanV r.2.1 r.2.2 = .ok r.2.2 ∧
      r.2.2 = (if r.1 = "reference_degradation" then 0 else -1)) := by
  refine ⟨fun mapper sentinel => rfl, ?_⟩
  intro r hr
  fin_cases hr <;> exact ⟨rfl, by decide⟩

/-- Claim C4: a present string outside the vocabulary of a lookup rule makes
`remap_to_int` raise `KeyError` (the `UnknownCategory` of the
specification) instead of returning an integer. -/
theorem remap_unknown_category (tbl : List (String × Int)) (s : String)
    (sentinel : Int) (h : tbl.lookup s = none) :
    remap_to_int (Cell.str s) (.mapping tbl) sentinel =
      .error (.keyError s) := by
  simp only [remap_to_int, mapperApply, h]

/-- Witness for claim C4: the string Editorial is in no vocabulary of the
`paper_type` rule and raises `KeyError`. -/
theorem remap_unknown_category_witness :
    remap_to_int (Cell.str "Editorial") (.mapping paperTypeTable) (-1) =
      .error (.keyError "Editorial") :=
  remap_unknown_category paperTypeTable "Editorial" (-1) rfl

/-- Claim C9: `remap_to_int` is a pure function of its arguments (the Python
function reads and writes no external state), so two invocations at the same
value, mapper and sentinel return the same result. -/
theorem remap_deterministic (value : Cell) (mapper : StringToInt)
    (sentinel : Int) (r1 r2 : Except PyError Int)
    (h1 : remap_to_int value mapper sentinel = r1)
    (h2 : remap_to_int value mapper sentinel = r2) : r1 = r2 :=
  h1.symm.trans h2

/-- Witness for claim C9: two evaluations of the yes/no remap of Yes agree
on the result 1. -/
theorem remap_deterministic_witness :
    (Except.ok 1 : Except PyError Int) = .ok 1 :=
  remap_deterministic (Cell.str "Yes") (.mapping yesNoTable) (-1)
    (.ok 1) (.ok 1) rfl rfl

/-- When every token resolves to a natural bit index, the accumulator loop
of `remap_list` succeeds with the OR of the shifted bits folded onto the
starting accumulator. -/
theorem remapTokensAux_resolvesTo (m : StringToInt) :
    ∀ (ts : List (List Char)) (idxs : List Nat) (acc : Nat),
      resolvesTo m ts idxs →
      remapTokensAux m acc ts =
        .ok (idxs.foldl (fun a i => a ||| (1 <<< i)) acc) := by
  intro ts
  induction ts with
  | nil =>
    intro idxs acc h
    cases idxs with
    | nil => rfl
    | cons i is => simp [resolvesTo] at h
  | cons t ts ih =>
    intro idxs acc h
    cases idxs with
    | nil => simp [resolvesTo] at h
    | cons i is =>
      obtain ⟨h1, h2⟩ := h
      simp only [remapTokensAux, h1, List.foldl_cons]
      rw [if_neg (by omega), Int.toNat_ofNat]
      exact ih is _ h2

/-- Claim C3: `remap_list` splits on commas and returns the bitwise OR of
`1 <<<` each resolved bit index; with the `reference_degradation` bit-index
rule the string Open Data,Preregistration splits into its two tokens and
remaps to `(1 <<< 1) ||| (1 <<< 3) = 10`. -/
theorem remap_list_bitfield :
    (∀ (values : String) (m : StringToInt) (idxs : List Nat),
      resolvesTo m (splitComma values.data) idxs →
      remap_list values m = .ok ((orBits idxs : Nat) : Int)) ∧
    splitComma "Open Data,Preregistration".data =
      ["Open Data".data, "Preregistration".data] ∧
    remap_list "Open Data,Preregistration"
      (.mapping referenceDegradationIndexTable) = .ok 10 ∧
    ((1 <<< 1) ||| (1 <<< 3) : Nat) = 10 := by
  refine ⟨?_, rfl, rfl, rfl⟩
  intro values m idxs h
  unfold remap_list
  rw [remapTokensAux_resolvesTo m _ idxs 0 h]
  rfl

/-- Claim C6: splitting the empty string yields exactly the one empty-string
token, and `remap_list` feeds that token to the index rule like any other
token — never to a missing-value path — so it fails with `KeyError` for any
table that lacks the empty string, as the bit-index table of
`reference_degradation` does. -/
theorem remap_list_empty_token :
    splitComma "".data = [[]] ∧
    (∀ m : StringToInt,
      remap_list "" m = (mapperApply m "").bind
        (fun i => if i < 0 then .error .valueError
          else .ok ((1 <<< i.toNat : Nat) : Int))) ∧
    (∀ tbl : List (String × Int), tbl.lookup "" = none →
      remap_list "" (.mapping tbl) = .error (.keyError "")) ∧
    remap_list "" (.mapping referenceDegradationIndexTable) =
      .error (.keyError "") := by
  have key : ∀ m : StringToInt,
      remap_list "" m = (mapperApply m "").bind
        (fun i => if i < 0 then .error .valueError
          else .ok ((1 <<< i.toNat : Nat) : Int)) := by
    intro m
    have hsplit : splitComma "".data = [[]] := rfl
    unfold remap_list
    rw [hsplit]
    have hs : String.mk [] = "" := rfl
    cases h : mapperApply m "" with
    | error e =>
      simp only [remapTokensAux, hs, h]
      rfl
    | ok i =>
      simp only [remapTokensAux, hs, h]
      by_cases hi : i < 0
      · simp only [hi, if_true, Except.bind]
        rfl
      · simp only [hi, if_false, Except.bind, Nat.zero_or]
        rfl
  refine ⟨rfl, key, ?_, rfl⟩
  intro tbl htbl
  have hm : mapperApply (.mapping tbl) "" = .error (.keyError "") := by
    simp [mapperApply, htbl]
  rw [key (.mapping tbl), hm]
  rfl

/-- Processing the same token twice in a row sets the same bit twice: the
accumulator is unchanged by the repetition, and an unresolvable token fails
identically on both sides. -/
theorem remapTokensAux_dup (m : StringToInt) :
    ∀ (pre : List (List Char)) (acc : Nat) (t : List Char)
      (post : List (List Char)),
      remapTokensAux m acc (pre ++ t :: t :: post) =
        remapTokensAux m acc (pre ++ t :: post) := by
  intro pre
  induction pre with
  | nil =>
    intro acc t post
    simp only [List.nil_append]
    cases h : mapperApply m (String.mk t) with
    | error e => simp [remapTokensAux, h]
    | ok i =>
      by_cases hi : i < 0
      · simp [remapTokensAux, h, hi]
      · simp only [remapTokensAux, h, if_neg hi]
        rw [Nat.lor_assoc, Nat.or_self]
  | cons p pre ih =>
    intro acc t post
    simp only [List.cons_append]
    cases h : mapperApply m (String.mk p) with
    | error e => simp [remapTokensAux, h]
    | ok i =>
      by_cases hi : i < 0
      · simp [remapTokensAux, h, hi]
      · simp only [remapTokensAux, h, if_neg hi]
        exact ih _ t post

/-- When every token resolves to a natural bit index, the accumulator loop
of `remap_list` is invariant under permutation of the tokens: OR is
associative and commutative. -/
theorem remapTokensAux_perm (m : StringToInt) :
    ∀ (ts ts2 : List (List Char)), ts.Perm ts2 →
      allResolveNat m ts → ∀ acc : Nat,
        remapTokensAux m acc ts = remapTokensAux m acc ts2 := by
  intro ts ts2 hperm
  induction hperm with
  | nil => intro _ acc; rfl
  | cons x hp ih =>
    intro hres acc
    obtain ⟨n, hn⟩ := hres x (List.mem_cons_self x _)
    simp only [remapTokensAux, hn]
    rw [if_neg (by omega), Int.toNat_ofNat]
    exact ih (fun t ht => hres t (List.mem_cons_of_mem _ ht)) _
  | swap x y l =>
    intro hres acc
    obtain ⟨a, ha⟩ := hres y (by simp)
    obtain ⟨b, hb⟩ := hres x (by simp)
    have hna : ¬ ((a : Int) < 0) := by omega
    have hnb : ¬ ((b : Int) < 0) := by omega
    simp only [remapTokensAux, ha, hb, if_neg hna, if_neg hnb,
      Int.toNat_ofNat]
    rw [Nat.lor_assoc, Nat.lor_assoc, Nat.lor_comm (1 <<< a) (1 <<< b)]
  | trans h1 _ ih1 ih2 =>
    intro hres acc
    rw [ih1 hres acc]
    exact ih2 (fun t ht => hres t (h1.mem_iff.mpr ht)) acc

/-- Claim C5: the bit-field union of `remap_list` is idempotent under a
repeated token and invariant under permutation of tokens that resolve in
the vocabulary; in particular Open Data,Open Data remaps like Open Data. -/
theorem remap_list_idempotent_commutative :
    (∀ (m : StringToInt) (acc : Nat) (pre post : List (List Char))
      (t : List Char),
      remapTokensAux m acc (pre ++ t :: t :: post) =
        remapTokensAux m acc (pre ++ t :: post)) ∧
    (∀ (m : StringToInt) (ts ts2 : List (List Char)), ts.Perm ts2 →
      allResolveNat m ts → ∀ acc : Nat,
        remapTokensAux m acc ts = remapTokensAux m acc ts2) ∧
    remap_list "Open Data,Open Data"
        (.mapping referenceDegradationIndexTable) =
      remap_list "Open Data" (.mapping referenceDegradationIndexTable) := by
  refine ⟨fun m acc pre post t => remapTokensAux_dup m pre acc t post,
    remapTokensAux_perm, rfl⟩

/-- A natural number is not larger than its OR with another: OR only adds
bits. -/
theorem nat_le_or_left (a b : Nat) : a ≤ a ||| b :=
  Nat.le_of_testBit fun i h => by simp [Nat.testBit_or, h]

/-- A successful association-list lookup returns a stored pair. -/
theorem lookup_mem {α β : Type} [BEq α] [LawfulBEq α] :
    ∀ (l : List (α × β)) (a : α) (b : β),
      l.lookup a = some b → (a, b) ∈ l := by
  intro l a b
  induction l with
  | nil => intro h; cases h
  | cons kv rest ih =>
    obtain ⟨k, v⟩ := kv
    intro h
    rw [List.lookup] at h
    cases hk : a == k with
    | true =>
      rw [hk] at h
      injection h with h
      exact h ▸ (eq_of_beq hk) ▸ List.mem_cons_self _ _
    | false =>
      rw [hk] at h
      exact List.mem_cons_of_mem _ (ih h)

/-- The bit-index table of `reference_degradation` only resolves to the
indices 0, 1, 2 and 3. -/
theorem rd_index_cases (s : String) (i : Int)
    (h : mapperApply (.mapping referenceDegradationIndexTable) s = .ok i) :
    i = 0 ∨ i = 1 ∨ i = 2 ∨ i = 3 := by
  simp only [mapperApply] at h
  rcases hl : List.lookup s referenceDegradationIndexTable with _ | v
  · rw [hl] at h; cases h
  · rw [hl] at h
    injection h with h
    have hmem := lookup_mem _ _ _ hl
    simp only [referenceDegradationIndexTable, List.mem_cons,
      List.not_mem_nil, or_false, Prod.mk.injEq] at hmem
    rcases hmem with ⟨_, rfl⟩ | ⟨_, rfl⟩ | ⟨_, rfl⟩ | ⟨_, rfl⟩ <;> omega

/-- Along the `reference_degradation` bit-index table the accumulator loop
never leaves the interval of four-bit values: the accumulator never shrinks
and stays below 16. -/
theorem remapTokensAux_rd_bound :
    ∀ (ts : List (List Char)) (acc r : Nat),
      remapTokensAux (.mapping referenceDegradationIndexTable) acc ts =
        .ok r →
      acc < 16 → acc ≤ r ∧ r < 16 := by
  intro ts
  induction ts with
  | nil =>
    intro acc r h hlt
    injection h with h
    exact ⟨Nat.le_of_eq h, h ▸ hlt⟩
  | cons t ts ih =>
    intro acc r h hlt
    cases hm : mapperApply (.mapping referenceDegradationIndexTable)
        (String.mk t) with
    | error e => simp [remapTokensAux, hm] at h
    | ok i =>
      simp only [remapTokensAux, hm] at h
      have hshift : (1 <<< i.toNat) < 16 := by
        rcases rd_index_cases _ _ hm with rfl | rfl | rfl | rfl <;> decide
      rw [if_neg (by rcases rd_index_cases _ _ hm with
        rfl | rfl | rfl | rfl <;> decide)] at h
      have hacc2 : acc ||| (1 <<< i.toNat) < 16 := by
        have h16 : (16 : Nat) = 2 ^ 4 := by norm_num
        rw [h16] at hlt hshift ⊢
        exact Nat.bitwise_lt_two_pow hlt hshift
      obtain ⟨h1, h2⟩ := ih _ r h hacc2
      exact ⟨Nat.le_trans (nat_le_or_left acc _) h1, h2⟩

/-- The Python split never returns an empty token list. -/
theorem splitComma_ne_nil (l : List Char) : splitComma l ≠ [] := by
  cases l with
  | nil => simp [splitComma]
  | cons c cs =>
    simp only [splitComma]
    rcases h : splitComma cs with _ | ⟨t, ts⟩
    · simp
    · split_ifs <;> simp

/-- Claim C10: a successful `remap_list` under the `reference_degradation`
bit-index rule always lies between 1 and 15: the split yields at least one
token, each token sets one of the four low bits, so the result is a nonzero
four-bit value and can never collide with the missing sentinel 0. -/
theorem remap_list_refdeg_range (values : String) (n : Int)
    (h : remap_list values (.mapping referenceDegradationIndexTable) =
      .ok n) :
    1 ≤ n ∧ n ≤ 15 := by
  unfold remap_list at h
  rcases haux : remapTokensAux (.mapping referenceDegradationIndexTable) 0
      (splitComma values.data) with e | r
  · rw [haux] at h; cases h
  · rw [haux] at h
    have hn : n = (r : Int) := by
      have : Except.ok ((r : Nat) : Int) = (.ok n : Except PyError Int) := h
      injection this with h2
      exact h2.symm
    subst hn
    rcases hsplit : splitComma values.data with _ | ⟨t, ts⟩
    · exact absurd hsplit (splitComma_ne_nil _)
    · rw [hsplit] at haux
      cases hm : mapperApply (.mapping referenceDegradationIndexTable)
          (String.mk t) with
      | error e => simp [remapTokensAux, hm] at haux
      | ok i =>
        simp only [remapTokensAux, hm] at haux
        rw [if_neg (by rcases rd_index_cases _ _ hm with
          rfl | rfl | rfl | rfl <;> decide)] at haux
        have hge : 1 ≤ 0 ||| (1 <<< i.toNat) := by
          rcases rd_index_cases _ _ hm with rfl | rfl | rfl | rfl <;> decide
        have hlt : 0 ||| (1 <<< i.toNat) < 16 := by
          rcases rd_index_cases _ _ hm with rfl | rfl | rfl | rfl <;> decide
        obtain ⟨h1, h2⟩ := remapTokensAux_rd_bound ts _ r haux hlt
        have hr1 : 1 ≤ r := Nat.le_trans hge h1
        omega

/-- Witness for claim C10: Open Data remaps to 2, which lies between 1 and
15. -/
theorem remap_list_refdeg_range_witness : (1 : Int) ≤ 2 ∧ (2 : Int) ≤ 15 :=
  remap_list_refdeg_range "Open Data" 2 rfl

/-- Elementwise related lists relate every left member to a right member. -/
theorem forall2_mem_left {α β : Type} {R : α → β → Prop} :
    ∀ {l0 : List α} {l1 : List β}, List.Forall₂ R l0 l1 →
      ∀ {a : α}, a ∈ l0 → ∃ b ∈ l1, R a b := by
  intro l0 l1 h
  induction h with
  | nil => intro a ha; cases ha
  | cons h1 _ ih =>
    intro a ha
    rcases List.mem_cons.mp ha with rfl | ha2
    · exact ⟨_, List.mem_cons_self _ _, h1⟩
    · obtain ⟨b, hb, hr⟩ := ih ha2
      exact ⟨b, List.mem_cons_of_mem _ hb, hr⟩

/-- Elementwise related lists relate every right member to a left member. -/
theorem forall2_mem_right {α β : Type} {R : α → β → Prop} :
    ∀ {l0 : List α} {l1 : List β}, List.Forall₂ R l0 l1 →
      ∀ {b : β}, b ∈ l1 → ∃ a ∈ l0, R a b := by
  intro l0 l1 h
  induction h with
  | nil => intro b hb; cases hb
  | cons h1 _ ih =>
    intro b hb
    rcases List.mem_cons.mp hb with rfl | hb2
    · exact ⟨_, List.mem_cons_self _ _, h1⟩
    · obtain ⟨a, ha, hr⟩ := ih hb2
      exact ⟨a, List.mem_cons_of_mem _ ha, hr⟩

/-- A row is related to itself when no column has been remapped yet. -/
theorem rowRel_refl (row : List (String × Cell)) : RowRel [] row row := by
  induction row with
  | nil => exact List.Forall₂.nil
  | cons kv rest ih =>
    exact List.Forall₂.cons
      ⟨rfl, fun h => absurd h (List.not_mem_nil _), fun _ => rfl⟩ ih

/-- A frame is related to itself when no column has been remapped yet. -/
theorem frameRel_refl (d : DataFrame) : FrameRel [] d d := by
  refine ⟨rfl, rfl, ?_⟩
  induction d.rows with
  | nil => exact List.Forall₂.nil
  | cons r rest ih => exact List.Forall₂.cons ⟨rfl, rowRel_refl r.2⟩ ih

/-- Remapping first the columns in `S` and then the columns in `T` relates a
row as remapping the columns in `S ++ T` does. -/
theorem rowRel_trans {S T : List String} :
    ∀ {a b c : List (String × Cell)},
      RowRel S a b → RowRel T b c → RowRel (S ++ T) a c := by
  intro a b c hab
  induction hab generalizing c with
  | nil =>
    intro hbc
    cases hbc
    exact List.Forall₂.nil
  | @cons a1 b1 as bs hab1 _ ih =>
    intro hbc
    cases hbc with
    | @cons _ c1 _ cs hbc1 hbcr =>
      refine List.Forall₂.cons ?_ (ih hbcr)
      obtain ⟨hk1, hint1, hkeep1⟩ := hab1
      obtain ⟨hk2, hint2, hkeep2⟩ := hbc1
      refine ⟨hk1.trans hk2, ?_, ?_⟩
      · intro hmem
        by_cases hT : a1.1 ∈ T
        · exact hint2 (hk1 ▸ hT)
        · rcases List.mem_append.mp hmem with hS | hT2
          · obtain ⟨i, hi⟩ := hint1 hS
            refine ⟨i, ?_⟩
            rw [hkeep2 (by rw [← hk1]; exact hT)]
            exact hi
          · exact absurd hT2 hT
      · intro hmem
        have hS : a1.1 ∉ S := fun h => hmem (List.mem_append.mpr (Or.inl h))
        have hT : a1.1 ∉ T := fun h => hmem (List.mem_append.mpr (Or.inr h))
        rw [hkeep2 (by rw [← hk1]; exact hT)]
        exact hkeep1 hS

/-- `rowRel_trans` lifted to the row lists of two frames. -/
theorem rowsRel_trans {S T : List String} :
    ∀ {l0 l1 l2 : List (String × List (String × Cell))},
      List.Forall₂ (fun r0 r1 => r0.1 = r1.1 ∧ RowRel S r0.2 r1.2) l0 l1 →
      List.Forall₂ (fun r1 r2 => r1.1 = r2.1 ∧ RowRel T r1.2 r2.2) l1 l2 →
      List.Forall₂ (fun r0 r2 => r0.1 = r2.1 ∧ RowRel (S ++ T) r0.2 r2.2)
        l0 l2 := by
  intro l0 l1 l2 h01
  induction h01 generalizing l2 with
  | nil =>
    intro h12
    cases h12
    exact List.Forall₂.nil
  | cons h1 _ ih =>
    intro h12
    cases h12 with
    | cons h2 h12r =>
      exact List.Forall₂.cons
        ⟨h1.1.trans h2.1, rowRel_trans h1.2 h2.2⟩ (ih h12r)

/-- `rowRel_trans` lifted to whole frames. -/
theorem frameRel_trans {S T : List String} {d0 d1 d2 : DataFrame}
    (h01 : FrameRel S d0 d1) (h12 : FrameRel T d1 d2) :
    FrameRel (S ++ T) d0 d2 :=
  ⟨h12.1.trans h01.1, h12.2.1.trans h01.2.1,
    rowsRel_trans h01.2.2 h12.2.2⟩

/-- A successful column remap relates the row to its image for the singleton
remapped-column set. -/
theorem mapRow_ok_rel (col : String) (m : StringToInt) (s : Int) :
    ∀ (row row2 : List (String × Cell)),
      mapRow col (remapCell m s) row = .ok row2 → RowRel [col] row row2 := by
  intro row
  induction row with
  | nil =>
    intro row2 h
    injection h with h
    subst h
    exact List.Forall₂.nil
  | cons kv rest ih =>
    intro row2 h
    rw [mapRow] at h
    cases hv : (if kv.1 = col then remapCell m s kv.2 else .ok kv.2) with
    | error e => rw [hv] at h; cases h
    | ok v2 =>
      rw [hv] at h
      cases hr : mapRow col (remapCell m s) rest with
      | error e => rw [hr] at h; cases h
      | ok rest2 =>
        rw [hr] at h
        injection h with h
        subst h
        refine List.Forall₂.cons ?_ (ih rest2 hr)
        by_cases hc : kv.1 = col
        · rw [if_pos hc] at hv
          simp only [remapCell] at hv
          cases hrm : remap_to_int kv.2 m s with
          | error e => rw [hrm] at hv; cases hv
          | ok i =>
            rw [hrm] at hv
            injection hv with hv
            refine ⟨rfl, fun _ => ⟨i, hv.symm⟩, fun hn => ?_⟩
            exact absurd (List.mem_singleton.mpr hc) hn
        · rw [if_neg hc] at hv
          injection hv with hv
          exact ⟨rfl, fun hmem => absurd (List.mem_singleton.mp hmem) hc,
            fun _ => hv.symm⟩

/-- A column remap of one row succeeds exactly when every cell stored under
the column resolves. -/
theorem mapRow_ok_iff (col : String) (f : Cell → Except PyError Cell) :
    ∀ row : List (String × Cell),
      (∃ row2, mapRow col f row = .ok row2) ↔
      (∀ kv ∈ row, kv.1 = col → ∃ v2, f kv.2 = .ok v2) := by
  intro row
  induction row with
  | nil =>
    constructor
    · intro _ kv h; cases h
    · intro _; exact ⟨[], rfl⟩
  | cons kv rest ih =>
    constructor
    · rintro ⟨row2, h⟩ kv2 hmem hcol
      rw [mapRow] at h
      cases hv : (if kv.1 = col then f kv.2 else .ok kv.2) with
      | error e => rw [hv] at h; cases h
      | ok v2 =>
        rw [hv] at h
        cases hr : mapRow col f rest with
        | error e => rw [hr] at h; cases h
        | ok rest2 =>
          rcases List.mem_cons.mp hmem with rfl | hmem2
          · rw [if_pos hcol] at hv
            exact ⟨v2, hv⟩
          · exact (ih.mp ⟨rest2, hr⟩) kv2 hmem2 hcol
    · intro hres
      have h1 : ∃ v2, (if kv.1 = col then f kv.2 else .ok kv.2) = .ok v2 := by
        by_cases hc : kv.1 = col
        · rw [if_pos hc]
          exact hres kv (List.mem_cons_self _ _) hc
        · rw [if_neg hc]
          exact ⟨kv.2, rfl⟩
      obtain ⟨v2, hv⟩ := h1
      obtain ⟨rest2, hr⟩ :=
        ih.mpr (fun kv2 h2 => hres kv2 (List.mem_cons_of_mem _ h2))
      exact ⟨(kv.1, v2) :: rest2, by rw [mapRow, hv, hr]⟩

/-- `mapRow_ok_rel` lifted to all rows of a frame. -/
theorem mapRows_ok_rel (col : String) (m : StringToInt) (s : Int) :
    ∀ (rows rows2 : List (String × List (String × Cell))),
      mapRows col (remapCell m s) rows = .ok rows2 →
      List.Forall₂ (fun r0 r1 => r0.1 = r1.1 ∧ RowRel [col] r0.2 r1.2)
        rows rows2 := by
  intro rows
  induction rows with
  | nil =>
    intro rows2 h
    injection h with h
    subst h
    exact List.Forall₂.nil
  | cons r rest ih =>
    intro rows2 h
    rw [mapRows] at h
    cases hv : mapRow col (remapCell m s) r.2 with
    | error e => rw [hv] at h; cases h
    | ok r2 =>
      rw [hv] at h
      cases hr : mapRows col (remapCell m s) rest with
      | error e => rw [hr] at h; cases h
      | ok rest2 =>
        rw [hr] at h
        injection h with h
        subst h
        exact List.Forall₂.cons ⟨rfl, mapRow_ok_rel col m s r.2 r2 hv⟩
          (ih rest2 hr)

/-- A whole-column remap succeeds exactly when every cell of the column
resolves in every row. -/
theorem mapRows_ok_iff (col : String) (f : Cell → Except PyError Cell) :
    ∀ rows : List (String × List (String × Cell)),
      (∃ rows2, mapRows col f rows = .ok rows2) ↔
      (∀ r ∈ rows, ∀ kv ∈ r.2, kv.1 = col → ∃ v2, f kv.2 = .ok v2) := by
  intro rows
  induction rows with
  | nil =>
    constructor
    · intro _ r h; cases h
    · intro _; exact ⟨[], rfl⟩
  | cons r rest ih =>
    constructor
    · rintro ⟨rows2, h⟩ r2 hmem kv hkv hcol
      rw [mapRows] at h
      cases hv : mapRow col f r.2 with
      | error e => rw [hv] at h; cases h
      | ok rr2 =>
        rw [hv] at h
        cases hr : mapRows col f rest with
        | error e => rw [hr] at h; cases h
        | ok rest2 =>
          rcases List.mem_cons.mp hmem with rfl | hmem2
          · exact (mapRow_ok_iff col f r2.2).mp ⟨rr2, hv⟩ kv hkv hcol
          · exact (ih.mp ⟨rest2, hr⟩) r2 hmem2 kv hkv hcol
    · intro hres
      obtain ⟨rr2, hv⟩ := (mapRow_ok_iff col f r.2).mpr
        (hres r (List.mem_cons_self _ _))
      obtain ⟨rest2, hr⟩ :=
        ih.mpr (fun r2 h2 => hres r2 (List.mem_cons_of_mem _ h2))
      exact ⟨(r.1, rr2) :: rest2, by rw [mapRows, hv, hr]⟩

/-- A cell-level remap succeeds exactly when `remap_to_int` does. -/
theorem remapCell_ok_iff (m : StringToInt) (s : Int) (c : Cell) :
    (∃ v2, remapCell m s c = .ok v2) ↔
    (∃ i, remap_to_int c m s = .ok i) := by
  unfold remapCell
  cases h : remap_to_int c m s with
  | error e =>
    constructor
    · rintro ⟨v2, hv⟩; cases hv
    · rintro ⟨i, hi⟩; cases hi
  | ok i =>
    constructor
    · intro _; exact ⟨i, rfl⟩
    · intro _; exact ⟨Cell.intV i, rfl⟩

/-- One per-column remap statement relates the frame to its image for the
singleton set of its column. -/
theorem applyRule_ok_rel (r : String × StringToInt × Int) (d d2 : DataFrame)
    (h : applyRule r d = .ok d2) : FrameRel [r.1] d d2 := by
  unfold applyRule DataFrame.mapCol at h
  cases hm : mapRows r.1 (remapCell r.2.1 r.2.2) d.rows with
  | error e => rw [hm] at h; cases h
  | ok rows2 =>
    rw [hm] at h
    injection h with h
    subst h
    exact ⟨rfl, rfl, mapRows_ok_rel r.1 r.2.1 r.2.2 d.rows rows2 hm⟩

/-- One per-column remap statement succeeds exactly when the rule resolves
every cell of its column. -/
theorem applyRule_ok_iff (r : String × StringToInt × Int) (d : DataFrame) :
    (∃ d2, applyRule r d = .ok d2) ↔
    (∀ row ∈ d.rows, ruleResolvesRow r row.2) := by
  constructor
  · rintro ⟨d2, h⟩ row hrow kv hkv hcol
    unfold applyRule DataFrame.mapCol at h
    cases hm : mapRows r.1 (remapCell r.2.1 r.2.2) d.rows with
    | error e => rw [hm] at h; cases h
    | ok rows2 =>
      have := (mapRows_ok_iff r.1 (remapCell r.2.1 r.2.2) d.rows).mp
        ⟨rows2, hm⟩ row hrow kv hkv hcol
      exact (remapCell_ok_iff r.2.1 r.2.2 kv.2).mp this
  · intro hres
    obtain ⟨rows2, hm⟩ :=
      (mapRows_ok_iff r.1 (remapCell r.2.1 r.2.2) d.rows).mpr
        (fun row hrow kv hkv hcol =>
          (remapCell_ok_iff r.2.1 r.2.2 kv.2).mpr (hres row hrow kv hkv hcol))
    exact ⟨{ d with rows := rows2 },
      by unfold applyRule DataFrame.mapCol; rw [hm]⟩

/-- Cells of a column outside the remapped set satisfy a property in the
image row exactly when they do in the source row. -/
theorem rowRel_resolves_iff {S : List String} (col : String)
    (p : Cell → Prop) (hcol : col ∉ S) :
    ∀ {row0 row1 : List (String × Cell)}, RowRel S row0 row1 →
      ((∀ kv ∈ row1, kv.1 = col → p kv.2) ↔
       (∀ kv ∈ row0, kv.1 = col → p kv.2)) := by
  intro row0 row1 h
  induction h with
  | nil => simp
  | @cons a b as bs h1 _ ih =>
    obtain ⟨hk, _, hkeep⟩ := h1
    constructor
    · intro hall kv hmem hc
      rcases List.mem_cons.mp hmem with rfl | hmem2
      · have hpb := hall b (List.mem_cons_self _ _) (hk.symm.trans hc)
        have hba : b.2 = kv.2 := hkeep (hc ▸ hcol)
        exact hba ▸ hpb
      · exact (ih.mp fun kv2 hm hcc =>
          hall kv2 (List.mem_cons_of_mem _ hm) hcc) kv hmem2 hc
    · intro hall kv hmem hc
      rcases List.mem_cons.mp hmem with rfl | hmem2
      · have hac : a.1 = col := hk.trans hc
        have hpa := hall a (List.mem_cons_self _ _) hac
        have hba : kv.2 = a.2 := hkeep (hac ▸ hcol)
        exact hba.symm ▸ hpa
      · exact (ih.mpr fun kv2 hm hcc =>
          hall kv2 (List.mem_cons_of_mem _ hm) hcc) kv hmem2 hc

/-- Unfolding an association-list lookup one pair at a time. -/
theorem lookup_cons (a k : String) (v : Cell) (l : List (String × Cell)) :
    List.lookup a ((k, v) :: l) =
      if a == k then some v else List.lookup a l := by
  rw [List.lookup]
  cases h : a == k <;> simp [h]

/-- The lookup of a column outside the remapped set is unchanged between a
row and its image. -/
theorem rowRel_lookup_eq {S : List String} (c : String) (hc : c ∉ S) :
    ∀ {row0 row1 : List (String × Cell)}, RowRel S row0 row1 →
      row1.lookup c = row0.lookup c := by
  intro row0 row1 h
  induction h with
  | nil => rfl
  | @cons a b as bs h1 _ ih =>
    obtain ⟨hk, _, hkeep⟩ := h1
    obtain ⟨ak, av⟩ := a
    obtain ⟨bk, bv⟩ := b
    simp only at hk
    subst hk
    rw [lookup_cons, lookup_cons]
    cases hq : c == ak with
    | true =>
      simp only [hq, if_true]
      have hbv : bv = av := hkeep ((eq_of_beq hq) ▸ hc)
      rw [hbv]
    | false =>
      simp only [hq, Bool.false_eq_true, if_false]
      exact ih

/-- The whole column of cells outside the remapped set is unchanged between
a frame and its image. -/
theorem frameRel_colCells {S : List String} (c : String) (hc : c ∉ S)
    {d0 d1 : DataFrame} (h : FrameRel S d0 d1) :
    colCells d1 c = colCells d0 c := by
  obtain ⟨_, _, hrows⟩ := h
  unfold colCells
  revert hrows
  generalize d0.rows = l0
  generalize d1.rows = l1
  intro hrows
  induction hrows with
  | nil => rfl
  | cons h1 _ ih =>
    simp only [List.map_cons]
    rw [rowRel_lookup_eq c hc h1.2, ih]

/-- The row keys (the index column) are unchanged between a frame and its
image. -/
theorem frameRel_rowKeys {S : List String} {d0 d1 : DataFrame}
    (h : FrameRel S d0 d1) :
    d1.rows.map Prod.fst = d0.rows.map Prod.fst := by
  obtain ⟨_, _, hrows⟩ := h
  revert hrows
  generalize d0.rows = l0
  generalize d1.rows = l1
  intro hrows
  induction hrows with
  | nil => rfl
  | cons h1 _ ih =>
    simp only [List.map_cons]
    rw [h1.1, ih]

/-- Every cell of a remapped column of an image row holds an integer. -/
theorem rowRel_int_cells {S : List String} :
    ∀ {row0 row1 : List (String × Cell)}, RowRel S row0 row1 →
      ∀ kv ∈ row1, kv.1 ∈ S → ∃ i, kv.2 = Cell.intV i := by
  intro row0 row1 h
  induction h with
  | nil => intro kv hm; cases hm
  | @cons a b as bs h1 _ ih =>
    intro kv hm hS
    rcases List.mem_cons.mp hm with rfl | hm2
    · exact h1.2.1 (h1.1 ▸ hS)
    · exact ih kv hm2 hS

/-- Every cell of a remapped column of an image frame holds an integer. -/
theorem frameRel_int_cells {S : List String} {d0 d1 : DataFrame}
    (h : FrameRel S d0 d1) :
    ∀ r ∈ d1.rows, ∀ kv ∈ r.2, kv.1 ∈ S → ∃ i, kv.2 = Cell.intV i := by
  intro r hr
  obtain ⟨r0, _, _, hrel⟩ := forall2_mem_right h.2.2 hr
  exact rowRel_int_cells hrel

/-- A successful run of a list of remap statements relates the frame it
started from to its output, for the union of the columns processed so
far. -/
theorem runRules_rel_of_ok :
    ∀ (rules : List (String × StringToInt × Int)) (d out : DataFrame),
      runRules rules d = .ok out →
      ∀ {S : List String} {d0 : DataFrame}, FrameRel S d0 d →
        FrameRel (S ++ rules.map Prod.fst) d0 out := by
  intro rules
  induction rules with
  | nil =>
    intro d out h S d0 hrel
    injection h with h
    subst h
    rw [List.map_nil, List.append_nil]
    exact hrel
  | cons r rs ih =>
    intro d out h S d0 hrel
    rw [runRules] at h
    cases ha : applyRule r d with
    | error e => rw [ha] at h; cases h
    | ok d2 =>
      rw [ha] at h
      have h2 : FrameRel (S ++ [r.1]) d0 d2 :=
        frameRel_trans hrel (applyRule_ok_rel r d d2 ha)
      have h3 := ih d2 out h h2
      rw [List.append_assoc] at h3
      exact h3

/-- A run of remap statements with pairwise distinct columns, none touched
before, succeeds exactly when every rule resolves every cell of its column
in the frame the run started from. -/
theorem runRules_ok_iff :
    ∀ (rules : List (String × StringToInt × Int)),
      (rules.map Prod.fst).Nodup →
      ∀ (S : List String), (∀ r ∈ rules, r.1 ∉ S) →
      ∀ (d0 d : DataFrame), FrameRel S d0 d →
        ((∃ out, runRules rules d = .ok out) ↔
         ∀ r ∈ rules, ∀ row ∈ d0.rows, ruleResolvesRow r row.2) := by
  intro rules
  induction rules with
  | nil =>
    intro _ S _ d0 d _
    constructor
    · intro _ r hr; cases hr
    · intro _; exact ⟨d, rfl⟩
  | cons r rs ih =>
    intro hnd S hdisj d0 d hrel
    obtain ⟨hhead, htail⟩ := List.nodup_cons.mp hnd
    have hdisj2 : ∀ r2 ∈ rs, r2.1 ∉ S ++ [r.1] := by
      intro r2 hr2 hmem
      rcases List.mem_append.mp hmem with hS | hone
      · exact hdisj r2 (List.mem_cons_of_mem _ hr2) hS
      · exact hhead ((List.mem_singleton.mp hone) ▸
          List.mem_map_of_mem Prod.fst hr2)
    constructor
    · rintro ⟨out, h⟩
      rw [runRules] at h
      cases ha : applyRule r d with
      | error e => rw [ha] at h; cases h
      | ok d2 =>
        rw [ha] at h
        have hrel2 : FrameRel (S ++ [r.1]) d0 d2 :=
          frameRel_trans hrel (applyRule_ok_rel r d d2 ha)
        intro r2 hr2 row hrow
        rcases List.mem_cons.mp hr2 with rfl | hr2b
        · have hresd : ∀ row1 ∈ d.rows, ruleResolvesRow r2 row1.2 :=
            (applyRule_ok_iff r2 d).mp ⟨d2, ha⟩
          obtain ⟨row1, hrow1, _, hrowrel⟩ := forall2_mem_left hrel.2.2 hrow
          exact (rowRel_resolves_iff r2.1
            (fun cell => ∃ i, remap_to_int cell r2.2.1 r2.2.2 = Except.ok i)
            (hdisj r2 (List.mem_cons_self _ _)) hrowrel).mp
            (hresd row1 hrow1)
        · exact (ih htail (S ++ [r.1]) hdisj2 d0 d2 hrel2).mp
            ⟨out, h⟩ r2 hr2b row hrow
    · intro hres
      have h1 : ∀ row1 ∈ d.rows, ruleResolvesRow r row1.2 := by
        intro row1 hrow1
        obtain ⟨row0, hrow0, _, hrowrel⟩ := forall2_mem_right hrel.2.2 hrow1
        exact (rowRel_resolves_iff r.1
          (fun cell => ∃ i, remap_to_int cell r.2.1 r.2.2 = Except.ok i)
          (hdisj r (List.mem_cons_self _ _)) hrowrel).mpr
          (hres r (List.mem_cons_self _ _) row0 hrow0)
      obtain ⟨d2, ha⟩ := (applyRule_ok_iff r d).mpr h1
      have hrel2 : FrameRel (S ++ [r.1]) d0 d2 :=
        frameRel_trans hrel (applyRule_ok_rel r d d2 ha)
      obtain ⟨out, hout⟩ := (ih htail (S ++ [r.1]) hdisj2 d0 d2 hrel2).mpr
        (fun r2 h2 => hres r2 (List.mem_cons_of_mem _ h2))
      exact ⟨out, by rw [runRules, ha]; exact hout⟩

/-- Claim C8: the transform is fail-fast and atomic. The run of the main
block succeeds, reaching `to_csv`, exactly when every cell of every
remapped column of the prepared frame resolves under the rule of its
column; one unresolvable cell anywhere makes the whole run abort with the
raised error, before any output is written. -/
theorem pipeline_fail_fast_atomic (df : DataFrame) :
    (∃ out, pipeline df = .ok out) ↔ allCellsResolve df :=
  runRules_ok_iff columnRules (by decide) []
    (fun _ _ h => List.not_mem_nil _ h) (prepare df) (prepare df)
    (frameRel_refl (prepare df))

/-- Claim C7 (amended): any successful run produces the key column first,
named doi, followed by exactly the thirteen target columns in the fixed
order; the cells of the twelve remapped columns are written as integers,
while the `conference_proceedings` column (and the key column) is passed
through from the prepared input unchanged, not remapped. -/
theorem pipeline_schema_amended (df out : DataFrame)
    (h : pipeline df = .ok out) :
    csvHeader out = "doi" :: orderedColumns ∧
    out.rows.map Prod.fst = (prepare df).rows.map Prod.fst ∧
    (∀ r ∈ out.rows, ∀ kv ∈ r.2, kv.1 ∈ remappedColumns →
      Cell.isInt kv.2 = true) ∧
    (∀ c : String, c ∉ remappedColumns →
      colCells out c = colCells (prepare df) c) := by
  have hrel : FrameRel ([] ++ columnRules.map Prod.fst) (prepare df) out :=
    runRules_rel_of_ok columnRules (prepare df) out h
      (frameRel_refl (prepare df))
  rw [List.nil_append] at hrel
  refine ⟨?_, frameRel_rowKeys hrel, ?_, ?_⟩
  · obtain ⟨hi, hc, _⟩ := hrel
    unfold csvHeader
    rw [hi, hc]
    rfl
  · intro r hr kv hkv hmem
    obtain ⟨i, hi⟩ := frameRel_int_cells hrel r hr kv hkv hmem
    rw [hi]
    rfl
  · intro c hcmem
    exact frameRel_colCells c hcmem hrel

/-- Witness for claim C7: the amended schema property instantiated at the
concrete one-row frame `exampleDf`, whose pipeline output is
`exampleCompiled`. -/
theorem pipeline_schema_amended_witness :
    csvHeader exampleCompiled = "doi" :: orderedColumns ∧
    exampleCompiled.rows.map Prod.fst =
      (prepare exampleDf).rows.map Prod.fst ∧
    (∀ r ∈ exampleCompiled.rows, ∀ kv ∈ r.2, kv.1 ∈ remappedColumns →
      Cell.isInt kv.2 = true) ∧
    (∀ c : String, c ∉ remappedColumns →
      colCells exampleCompiled c = colCells (prepare exampleDf) c) :=
  pipeline_schema_amended exampleDf exampleCompiled rfl

/-- Counterexample to claim C7 as stated: on the valid one-row input
`exampleDf` the run succeeds, yet the produced `conference_proceedings`
column holds the passed-through string ACM CHI 2020 and not an integer, so
not every value of the thirteen target columns is written as an integer. -/
theorem pipeline_passthrough_counterexample :
    pipeline exampleDf = .ok exampleCompiled ∧
    colCells exampleCompiled "conference_proceedings" =
      [some (Cell.str "ACM CHI 2020")] ∧
    Cell.isInt (Cell.str "ACM CHI 2020") = false :=
  ⟨rfl, rfl, rfl⟩

end QDC
